import Mathlib

/-!
Shallow embedding of the k2spicedb repository core
(`src/k2spicedb/keycloak_parser.py` and `src/k2spicedb/schema_generator.py`)
and proofs about the claims of its specification.

Conventions of the embedding:
* Python dicts of the raw JSON record are modelled as structures whose fields
  are the keys the code reads; a key whose absence the code distinguishes
  from presence is an `Option`, a key read only through `.get(k, default)`
  where the default is indistinguishable from an absent key is modelled by
  the defaulted value directly.
* Python exceptions (KeyError from `role["name"]`, IndexError from
  `sanitized[0]`) are modelled by `Option`: `none` is a raised exception.
* Python dict assignment `d[k] = v` (update in place when the key exists,
  append otherwise, insertion order preserved) is `insertAssoc` on an
  ordered association list.
* Python truthiness of a string / list / dict is non-emptiness.
-/

namespace k2spicedb

/-- Parsed Keycloak group (dataclass `Group` of `keycloak_parser.py`). -/
structure Group where
  name : String
  subgroups : List Group
deriving Repr

/-- Raw JSON group record.  The code reads only `name` (via
`.get("name", "")`) and `subGroups` (via `.get("subGroups", [])`, so an
absent key is indistinguishable from `[]`).  The lowercase `subgroups` key,
which a record may also carry, is kept in the model so that claims about it
can be stated; the code never reads it. -/
inductive RawGroup where
  | mk (name : Option String) (subGroups : List RawGroup)
       (subgroupsLower : List RawGroup) : RawGroup
deriving Repr

/-- Raw `composites` value of a role record: the `realm` list (default `[]`)
and the `client` map (default `{}`), as read by
`_extract_composite_components`.  A raw record whose `composites` key is
absent or bound to an empty (falsy) dict is modelled as `none` at the use
site (`RawRole.composites`). -/
structure RawComposites where
  realm : List String
  client : List (String × List String)
deriving Repr, DecidableEq

/-- Raw JSON role record: the keys `name`, `composite`, `composites` that
the parser reads.  `composites = none` models both an absent key and an
empty dict (both falsy under `role.get("composite") and
role.get("composites")`). -/
structure RawRole where
  name : Option String
  composite : Bool
  composites : Option RawComposites
deriving Repr, DecidableEq

/-- Raw JSON realm record: the keys `realm`, `id`, `roles.realm`,
`roles.client`, `groups` that `parse_data` reads, with the defaults the code uses
for absent containers. -/
structure RawRealm where
  realm : Option String
  id : Option String
  roles_realm : List RawRole
  roles_client : List (String × List RawRole)
  groups : List RawGroup
deriving Repr

/-- Structured realm (dataclass `KeycloakRealm` of `keycloak_parser.py`).
The two Python dicts are ordered association lists. -/
structure KeycloakRealm where
  name : String
  realm_roles : List String
  client_roles : List (String × List String)
  groups : List Group
  composite_roles : List (String × List String)
deriving Repr

/-- Python dict assignment `d[k] = v` on an insertion-ordered dict: if the
key exists its value is replaced in place, otherwise the pair is appended. -/
def insertAssoc (m : List (String × α)) (k : String) (v : α) :
    List (String × α) :=
  if m.any (fun p => p.1 = k) then
    m.map (fun p => if p.1 = k then (k, v) else p)
  else
    m ++ [(k, v)]

/-- Python `x or y` for a possibly-absent string `x`: the fallback is used
when the key is absent or its value is the empty (falsy) string. -/
def orElseTruthy (v : Option String) (fallback : String) : String :=
  match v with
  | some s => if s = "" then fallback else s
  | none => fallback

mutual

/-- Embedding of `KeycloakParser._parse_group`: recursively parses a group
record; `name` defaults to `""`; children are read from `subGroups` only. -/
def parse_group : RawGroup → Group
  | RawGroup.mk name subs _ => Group.mk (name.getD "") (parse_groups subs)

/-- List form of the recursion of `_parse_group` over child records,
preserving source order. -/
def parse_groups : List RawGroup → List Group
  | [] => []
  | g :: gs => parse_group g :: parse_groups gs

end

/-- Embedding of `KeycloakParser._extract_groups`. -/
def extract_groups (data : RawRealm) : List Group :=
  parse_groups data.groups

/-- Embedding of `KeycloakParser._extract_realm_roles`:
`[role.get("name") for role in data.get("roles", {}).get("realm", []) if role.get("name")]`;
the truthiness filter drops absent and empty names. -/
def extract_realm_roles (data : RawRealm) : List String :=
  data.roles_realm.filterMap
    (fun r => r.name.bind (fun n => if n = "" then none else some n))

/-- Embedding of `KeycloakParser._extract_client_roles`: per client, keep
the truthy role names; clients with no kept names are omitted. -/
def extract_client_roles (data : RawRealm) : List (String × List String) :=
  data.roles_client.foldl
    (fun acc p =>
      let role_names := p.2.filterMap
        (fun r => r.name.bind (fun n => if n = "" then none else some n))
      if role_names.isEmpty then acc else insertAssoc acc p.1 role_names)
    []

/-- Embedding of `KeycloakParser._extract_composite_components`: the
`composites.realm` names in order, then `client:role` compounds per client
in order. -/
def extract_composite_components (role : RawRole) : List String :=
  let composites := role.composites.getD ⟨[], []⟩
  composites.realm ++
    (composites.client.map (fun p => p.2.map (fun r => p.1 ++ ":" ++ r))).flatten

/-- Loop body of `KeycloakParser._extract_composite_roles` over the
concatenated role list.  A role that is composite, has a truthy
`composites` value and a non-empty component list is stored under
`role["name"]` — a bracket access that raises `KeyError` (modelled `none`)
when the `name` key is absent. -/
def extract_composites_aux :
    List RawRole → List (String × List String) → Option (List (String × List String))
  | [], acc => some acc
  | r :: rs, acc =>
    if r.composite && r.composites.isSome then
      let components := extract_composite_components r
      if components.isEmpty then
        extract_composites_aux rs acc
      else
        match r.name with
        | some n => extract_composites_aux rs (insertAssoc acc n components)
        | none => none
    else
      extract_composites_aux rs acc

/-- Embedding of `KeycloakParser._extract_composite_roles`: iterates the
realm role records followed by the role records of every client (clients in
insertion order). -/
def extract_composite_roles (data : RawRealm) :
    Option (List (String × List String)) :=
  extract_composites_aux
    (data.roles_realm ++ (data.roles_client.map (fun p => p.2)).flatten) []

/-- Embedding of `KeycloakParser.parse_data`.  The name falls back from
`realm` to `id` to `"UnnamedRealm"` through Python `or` (empty strings are
falsy); `none` models the `KeyError` that composite extraction can raise. -/
def parse_data (data : RawRealm) : Option KeycloakRealm :=
  let realm_name := orElseTruthy data.realm (orElseTruthy data.id "UnnamedRealm")
  let realm_roles := extract_realm_roles data
  let client_roles := extract_client_roles data
  (extract_composite_roles data).bind fun composite_roles =>
    let groups := extract_groups data
    some ⟨realm_name, realm_roles, client_roles, groups, composite_roles⟩

/-- Character replacement of the `re.sub` call in `sanitize_identifier`
applied to a single character: characters outside the class `[0-9a-zA-Z_]`
become an underscore.  `Char.isAlphanum` is exactly ASCII `[0-9a-zA-Z]`,
matching the regex. -/
def sanitizeChar (c : Char) : Char :=
  if c.isAlphanum || c = '_' then c else '_'

/-- Embedding of `SchemaGenerator.sanitize_identifier`: replace every
character outside `[0-9a-zA-Z_]` with `_`, then prepend `_` if the first
character of the result is a digit.  `sanitized[0]` raises `IndexError`
(modelled `none`) on the empty string.  The first character of `sanitized`
lies in `[0-9a-zA-Z_]`, on which Python `str.isdigit` coincides with ASCII
`Char.isDigit`. -/
def sanitize_identifier (name : String) : Option String :=
  match name.data.map sanitizeChar with
  | [] => none
  | c :: cs => some (String.mk (if c.isDigit then '_' :: c :: cs else c :: cs))

/-- Option-valued map over a list, left to right, propagating the first
failure — the effect order of a Python list comprehension whose body may
raise. -/
def mapOption (f : α → Option β) : List α → Option (List β)
  | [] => some []
  | a :: l =>
    (f a).bind fun b => (mapOption f l).bind fun r => some (b :: r)

/-- Python truthiness of the `valid_roles` argument of
`_add_composite_permissions`: `None` and the empty list are falsy. -/
def truthyRoles : Option (List String) → Bool
  | none => false
  | some l => !l.isEmpty

/-- Embedding of `SchemaGenerator._add_composite_permissions`, returning the
single line it appends.  `valid_parts` keeps (sanitized) exactly the parts
passing `not valid_roles or p in valid_roles`; a non-empty `valid_parts`
yields a `permission` line, an empty one the comment fallback naming the
raw composite role. -/
def add_composite_permissions (composite_role : String) (parts : List String)
    (valid_roles : Option (List String)) : Option String :=
  (sanitize_identifier composite_role).bind fun safe_composite =>
    (mapOption sanitize_identifier
        (parts.filter
          (fun p => !truthyRoles valid_roles || (valid_roles.getD []).contains p))).bind
      fun valid_parts =>
        if valid_parts.isEmpty then
          some ("    // Composite role \x27" ++ composite_role ++
            "\x27 spans multiple scopes (not fully expanded)")
        else
          some ("    permission " ++ safe_composite ++ " = " ++
            String.intercalate " + " valid_parts)

/-- Embedding of `SchemaGenerator._add_group_definition`, returning the
lines of the group block (empty when `realm.groups` is empty: the source
returns without appending anything).  The source builds the block by
conditionally appending the parent-relation line before the closing brace;
the two reachable line lists are written out. -/
def add_group_definition (realm : KeycloakRealm) : List String :=
  if realm.groups.isEmpty then []
  else if realm.groups.any (fun g => !g.subgroups.isEmpty) then
    ["definition group \x7b", "    relation member: user",
     "    relation parent: group", "\x7d"]
  else
    ["definition group \x7b", "    relation member: user", "\x7d"]

/-- Embedding of `SchemaGenerator._add_realm_roles`, returning the lines of
the realm block (empty when `realm.realm_roles` is empty).  Composite
entries whose key is a realm role are rendered in `composite_roles` order
with `valid_roles = None`. -/
def add_realm_roles (realm : KeycloakRealm) : Option (List String) :=
  if realm.realm_roles.isEmpty then some []
  else
    (mapOption (fun role => (sanitize_identifier role).map
        (fun safe => "    relation " ++ safe ++ ": user")) realm.realm_roles).bind
      fun rel_lines =>
        (mapOption (fun p => add_composite_permissions p.1 p.2 none)
            (realm.composite_roles.filter
              (fun p => realm.realm_roles.contains p.1))).bind
          fun comp_lines =>
            some ("definition realm \x7b" :: rel_lines ++ comp_lines ++ ["\x7d"])

/-- Lines of the object block of one client in `SchemaGenerator._add_client_roles`.
Composite entries whose key is in the role list of this client are rendered with
`valid_roles` equal to that list. -/
def client_block (composite_roles : List (String × List String))
    (client : String) (roles : List String) : Option (List String) :=
  (sanitize_identifier client).bind fun safe_client =>
    (mapOption (fun role => (sanitize_identifier role).map
        (fun safe => "    relation " ++ safe ++ ": user")) roles).bind
      fun rel_lines =>
        (mapOption (fun p => add_composite_permissions p.1 p.2 (some roles))
            (composite_roles.filter (fun p => roles.contains p.1))).bind
          fun comp_lines =>
            some (("definition " ++ safe_client ++ " \x7b") ::
              rel_lines ++ comp_lines ++ ["\x7d"])

/-- Embedding of `SchemaGenerator._add_client_roles`: one block per client,
in `client_roles` order. -/
def add_client_roles (realm : KeycloakRealm) : Option (List String) :=
  (mapOption (fun p => client_block realm.composite_roles p.1 p.2)
      realm.client_roles).bind fun blocks => some blocks.flatten

/-- Line list of `SchemaGenerator.generate_schema`.  The source joins each
lines of each block with `"\n"` into one string and then joins the block strings
with the same `"\n"`, so the final text is the plain `"\n"`-join of this
flattened line list.  When all three collections are empty the realm-name
comment is inserted at position 0. -/
def schema_lines (realm : KeycloakRealm) : Option (List String) :=
  (add_realm_roles realm).bind fun realm_lines =>
    (add_client_roles realm).bind fun client_lines =>
      let lines := "definition user \x7b\x7d" ::
        (add_group_definition realm ++ realm_lines ++ client_lines)
      if realm.realm_roles.isEmpty && realm.client_roles.isEmpty
          && realm.groups.isEmpty then
        some (("// Realm: " ++ realm.name) :: lines)
      else
        some lines

/-- Embedding of `SchemaGenerator.generate_schema`: the joined schema text
(`none` models the `IndexError` that `sanitize_identifier` raises on an
empty name). -/
def generate_schema (realm : KeycloakRealm) : Option String :=
  (schema_lines realm).map (String.intercalate "\n")

/-! Helper lemmas about `mapOption`. -/

/-- Every input element of a successful `mapOption` is sent to some output
element. -/
theorem mapOption_mem {α β : Type} {f : α → Option β} {l : List α}
    {r : List β} (h : mapOption f l = some r) {x : α} (hx : x ∈ l) :
    ∃ y, f x = some y ∧ y ∈ r := by
  induction l generalizing r with
  | nil => exact absurd hx (List.not_mem_nil x)
  | cons a t ih =>
    rw [mapOption, Option.bind_eq_some] at h
    obtain ⟨b, hfa, h⟩ := h
    rw [Option.bind_eq_some] at h
    obtain ⟨rest, hmt, h⟩ := h
    simp only [Option.some.injEq] at h
    subst h
    rcases List.mem_cons.mp hx with rfl | hxt
    · exact ⟨b, hfa, List.mem_cons_self b rest⟩
    · obtain ⟨y, hy1, hy2⟩ := ih hmt hxt
      exact ⟨y, hy1, List.mem_cons_of_mem b hy2⟩

/-- Every output element of a successful `mapOption` comes from some input
element. -/
theorem mem_mapOption {α β : Type} {f : α → Option β} {l : List α}
    {r : List β} (h : mapOption f l = some r) {y : β} (hy : y ∈ r) :
    ∃ x, x ∈ l ∧ f x = some y := by
  induction l generalizing r with
  | nil => rw [mapOption] at h; simp only [Option.some.injEq] at h
           subst h; exact absurd hy (List.not_mem_nil y)
  | cons a t ih =>
    rw [mapOption, Option.bind_eq_some] at h
    obtain ⟨b, hfa, h⟩ := h
    rw [Option.bind_eq_some] at h
    obtain ⟨rest, hmt, h⟩ := h
    simp only [Option.some.injEq] at h
    subst h
    rcases List.mem_cons.mp hy with rfl | hyr
    · exact ⟨a, List.mem_cons_self a t, hfa⟩
    · obtain ⟨x, hx1, hx2⟩ := ih hmt hyr
      exact ⟨x, List.mem_cons_of_mem a hx1, hx2⟩

/-- A successful `mapOption` preserves the length. -/
theorem mapOption_length {α β : Type} {f : α → Option β} {l : List α}
    {r : List β} (h : mapOption f l = some r) : r.length = l.length := by
  induction l generalizing r with
  | nil => rw [mapOption] at h; simp only [Option.some.injEq] at h; subst h; rfl
  | cons a t ih =>
    rw [mapOption, Option.bind_eq_some] at h
    obtain ⟨b, hfa, h⟩ := h
    rw [Option.bind_eq_some] at h
    obtain ⟨rest, hmt, h⟩ := h
    simp only [Option.some.injEq] at h
    subst h
    simp [ih hmt]

/-! Helper lemmas telling schema lines of different shapes apart. -/

/-- Two strings differing at some character position are different. -/
theorem str_ne_of_getElem {s t : String} (i : Nat)
    (h : s.data[i]? ≠ t.data[i]?) : s ≠ t :=
  fun he => h (congrArg (fun u => u.data[i]?) he)

/-- Two strings differing in their last character are different. -/
theorem str_ne_of_getLast {s t : String} (h : s.data.getLast? ≠ t.data.getLast?) :
    s ≠ t :=
  fun he => h (congrArg (fun u => u.data.getLast?) he)

/-- A definition-opening line never equals the group parent-relation line. -/
theorem defline_ne_parent (t : String) :
    "definition " ++ t ≠ "    relation parent: group" := by
  apply str_ne_of_getElem 0
  rw [String.data_append, List.getElem?_append,
    if_pos (by decide : (0 : Nat) < "definition ".data.length)]
  decide

/-- A permission line never equals the group parent-relation line. -/
theorem permline_ne_parent (t : String) :
    "    permission " ++ t ≠ "    relation parent: group" := by
  apply str_ne_of_getElem 4
  rw [String.data_append, List.getElem?_append,
    if_pos (by decide : (4 : Nat) < "    permission ".data.length)]
  decide

/-- A composite-fallback comment line never equals the group
parent-relation line. -/
theorem commentline_ne_parent (t : String) :
    "    // Composite role \x27" ++ t ≠ "    relation parent: group" := by
  apply str_ne_of_getElem 4
  rw [String.data_append, List.getElem?_append,
    if_pos (by decide : (4 : Nat) < "    // Composite role \x27".data.length)]
  decide

/-- A relation-to-user line never equals the group parent-relation line. -/
theorem relline_ne_parent (t : String) :
    "    relation " ++ t ++ ": user" ≠ "    relation parent: group" := by
  apply str_ne_of_getLast
  rw [String.data_append, List.getLast?_append,
    (by decide : ": user".data.getLast? = some (Char.ofNat 114)), Option.or_some]
  decide

/-- The one line appended by `_add_composite_permissions` is either a
permission line or the comment fallback. -/
theorem add_composite_permissions_shape {c : String} {parts : List String}
    {vr : Option (List String)} {y : String}
    (h : add_composite_permissions c parts vr = some y) :
    (∃ t, y = "    permission " ++ t) ∨
      (∃ t, y = "    // Composite role \x27" ++ t) := by
  unfold add_composite_permissions at h
  rw [Option.bind_eq_some] at h
  obtain ⟨safe, hs, h⟩ := h
  rw [Option.bind_eq_some] at h
  obtain ⟨valid_parts, hm, h⟩ := h
  by_cases he : valid_parts.isEmpty
  · rw [if_pos he] at h
    simp only [Option.some.injEq] at h
    exact Or.inr ⟨c ++ "\x27 spans multiple scopes (not fully expanded)",
      by rw [← h, String.append_assoc]⟩
  · rw [if_neg he] at h
    simp only [Option.some.injEq] at h
    exact Or.inl ⟨safe ++ (" = " ++ String.intercalate " + " valid_parts),
      by rw [← h, String.append_assoc, String.append_assoc]⟩

/-- Every line of the realm block has one of five shapes, none of which is
the group parent-relation line. -/
theorem add_realm_roles_shape {realm : KeycloakRealm} {ls : List String}
    (h : add_realm_roles realm = some ls) :
    ∀ y ∈ ls, y = "definition realm \x7b" ∨
      (∃ t, y = "    relation " ++ t ++ ": user") ∨
      (∃ t, y = "    permission " ++ t) ∨
      (∃ t, y = "    // Composite role \x27" ++ t) ∨ y = "\x7d" := by
  unfold add_realm_roles at h
  by_cases he : realm.realm_roles.isEmpty
  · rw [if_pos he] at h
    simp only [Option.some.injEq] at h
    subst h
    intro y hy
    exact absurd hy (List.not_mem_nil y)
  · rw [if_neg he, Option.bind_eq_some] at h
    obtain ⟨rel_lines, hrel, h⟩ := h
    rw [Option.bind_eq_some] at h
    obtain ⟨comp_lines, hcomp, h⟩ := h
    simp only [Option.some.injEq] at h
    subst h
    intro y hy
    rcases List.mem_cons.mp hy with rfl | hy2
    · exact Or.inl rfl
    rcases List.mem_append.mp hy2 with hy3 | hy4
    · rcases List.mem_append.mp hy3 with hy5 | hy5
      · obtain ⟨role, _, hr⟩ := mem_mapOption hrel hy5
        rw [Option.map_eq_some'] at hr
        obtain ⟨safe, _, hr⟩ := hr
        exact Or.inr (Or.inl ⟨safe, hr.symm⟩)
      · obtain ⟨p, _, hp⟩ := mem_mapOption hcomp hy5
        rcases add_composite_permissions_shape hp with h5 | h5
        · exact Or.inr (Or.inr (Or.inl h5))
        · exact Or.inr (Or.inr (Or.inr (Or.inl h5)))
    · rcases List.mem_cons.mp hy4 with rfl | hy5
      · exact Or.inr (Or.inr (Or.inr (Or.inr rfl)))
      · exact absurd hy5 (List.not_mem_nil y)

/-- Every line of a client object block has one of five shapes, none of
which is the group parent-relation line. -/
theorem client_block_shape {cr : List (String × List String)}
    {client : String} {roles : List String} {b : List String}
    (h : client_block cr client roles = some b) :
    ∀ y ∈ b, (∃ t, y = "definition " ++ t) ∨
      (∃ t, y = "    relation " ++ t ++ ": user") ∨
      (∃ t, y = "    permission " ++ t) ∨
      (∃ t, y = "    // Composite role \x27" ++ t) ∨ y = "\x7d" := by
  unfold client_block at h
  rw [Option.bind_eq_some] at h
  obtain ⟨safe_client, hs, h⟩ := h
  rw [Option.bind_eq_some] at h
  obtain ⟨rel_lines, hrel, h⟩ := h
  rw [Option.bind_eq_some] at h
  obtain ⟨comp_lines, hcomp, h⟩ := h
  simp only [Option.some.injEq] at h
  subst h
  intro y hy
  rcases List.mem_cons.mp hy with rfl | hy2
  · exact Or.inl ⟨safe_client ++ " \x7b", by rw [String.append_assoc]⟩
  rcases List.mem_append.mp hy2 with hy3 | hy4
  · rcases List.mem_append.mp hy3 with hy5 | hy5
    · obtain ⟨role, _, hr⟩ := mem_mapOption hrel hy5
      rw [Option.map_eq_some'] at hr
      obtain ⟨safe, _, hr⟩ := hr
      exact Or.inr (Or.inl ⟨safe, hr.symm⟩)
    · obtain ⟨p, _, hp⟩ := mem_mapOption hcomp hy5
      rcases add_composite_permissions_shape hp with h5 | h5
      · exact Or.inr (Or.inr (Or.inl h5))
      · exact Or.inr (Or.inr (Or.inr (Or.inl h5)))
  · rcases List.mem_cons.mp hy4 with rfl | hy5
    · exact Or.inr (Or.inr (Or.inr (Or.inr rfl)))
    · exact absurd hy5 (List.not_mem_nil y)

/-- The group parent-relation line never occurs in the realm block. -/
theorem parent_not_mem_realm {realm : KeycloakRealm} {ls : List String}
    (h : add_realm_roles realm = some ls) :
    "    relation parent: group" ∉ ls := by
  intro hm
  rcases add_realm_roles_shape h _ hm with h1 | ⟨t, ht⟩ | ⟨t, ht⟩ | ⟨t, ht⟩ | h1
  · exact absurd h1 (by decide)
  · exact relline_ne_parent t ht.symm
  · exact permline_ne_parent t ht.symm
  · exact commentline_ne_parent t ht.symm
  · exact absurd h1 (by decide)

/-- The group parent-relation line never occurs in the client blocks. -/
theorem parent_not_mem_client {realm : KeycloakRealm} {ls : List String}
    (h : add_client_roles realm = some ls) :
    "    relation parent: group" ∉ ls := by
  intro hm
  unfold add_client_roles at h
  rw [Option.bind_eq_some] at h
  obtain ⟨blocks, hb, h⟩ := h
  simp only [Option.some.injEq] at h
  subst h
  obtain ⟨b, hb1, hb2⟩ := List.mem_flatten.mp hm
  obtain ⟨p, _, hp⟩ := mem_mapOption hb hb1
  rcases client_block_shape hp _ hb2 with ⟨t, ht⟩ | ⟨t, ht⟩ | ⟨t, ht⟩ | ⟨t, ht⟩ | h1
  · exact defline_ne_parent t ht.symm
  · exact relline_ne_parent t ht.symm
  · exact permline_ne_parent t ht.symm
  · exact commentline_ne_parent t ht.symm
  · exact absurd h1 (by decide)

/-- Structural description of a successful `schema_lines` run: the realm
and client blocks exist, and the lines are the concatenation of the blocks,
with the realm-name comment prepended exactly when all three collections
are empty. -/
theorem schema_lines_cases {realm : KeycloakRealm} {ls : List String}
    (h : schema_lines realm = some ls) :
    ∃ rl cl, add_realm_roles realm = some rl ∧ add_client_roles realm = some cl ∧
      ((realm.realm_roles = [] ∧ realm.client_roles = [] ∧ realm.groups = [] ∧
        ls = ("// Realm: " ++ realm.name) :: "definition user \x7b\x7d" ::
          (add_group_definition realm ++ rl ++ cl)) ∨
       (¬ (realm.realm_roles = [] ∧ realm.client_roles = [] ∧ realm.groups = []) ∧
        ls = "definition user \x7b\x7d" ::
          (add_group_definition realm ++ rl ++ cl))) := by
  unfold schema_lines at h
  rw [Option.bind_eq_some] at h
  obtain ⟨rl, hr, h⟩ := h
  rw [Option.bind_eq_some] at h
  obtain ⟨cl, hc, h⟩ := h
  refine ⟨rl, cl, hr, hc, ?_⟩
  simp only at h
  by_cases hcond : realm.realm_roles.isEmpty && realm.client_roles.isEmpty
      && realm.groups.isEmpty
  · rw [if_pos hcond] at h
    simp only [Option.some.injEq] at h
    simp only [Bool.and_eq_true, List.isEmpty_iff] at hcond
    exact Or.inl ⟨hcond.1.1, hcond.1.2, hcond.2, h.symm⟩
  · rw [if_neg hcond] at h
    simp only [Option.some.injEq] at h
    refine Or.inr ⟨?_, h.symm⟩
    intro ⟨h1, h2, h3⟩
    exact hcond (by simp [h1, h2, h3])

/-- Contents of the group block when groups exist: the member relation is
always present, the parent relation exactly when some top-level group has a
non-empty subgroup list. -/
theorem add_group_definition_spec {realm : KeycloakRealm}
    (h : realm.groups ≠ []) :
    "    relation member: user" ∈ add_group_definition realm ∧
    ("    relation parent: group" ∈ add_group_definition realm ↔
      ∃ g ∈ realm.groups, g.subgroups ≠ []) := by
  unfold add_group_definition
  rw [if_neg (by simpa [List.isEmpty_iff] using h)]
  by_cases ha : realm.groups.any (fun g => !g.subgroups.isEmpty)
  · rw [if_pos ha]
    refine ⟨by simp, ?_, fun _ => by simp⟩
    intro _
    simp only [List.any_eq_true, Bool.not_eq_eq_eq_not, Bool.not_true] at ha
    obtain ⟨g, hg, hgs⟩ := ha
    exact ⟨g, hg, List.isEmpty_eq_false.mp hgs⟩
  · rw [if_neg ha]
    refine ⟨by simp, ?_, ?_⟩
    · intro hmem
      exact absurd hmem (by decide)
    · rintro ⟨g, hg, hgs⟩
      exact absurd (List.any_eq_true.mpr
        ⟨g, hg, by simp [List.isEmpty_eq_false.mpr hgs]⟩) ha

/-- C7: for every Realm value with non-empty groups, the generated line
list contains the line `relation member: user`, and contains the line
`relation parent: group` if and only if at least one top-level group in
`realm.groups` has a non-empty subgroup list; when `realm.groups` is empty
the group-definition helper emits no group declaration at all. -/
theorem C7_group_block (realm : KeycloakRealm) (ls : List String)
    (h : schema_lines realm = some ls) :
    (realm.groups ≠ [] →
      "    relation member: user" ∈ ls ∧
      ("    relation parent: group" ∈ ls ↔
        ∃ g ∈ realm.groups, g.subgroups ≠ [])) ∧
    (realm.groups = [] → add_group_definition realm = []) := by
  obtain ⟨rl, cl, hr, hc, hcase⟩ := schema_lines_cases h
  constructor
  · intro hg
    have hls : ls = "definition user \x7b\x7d" ::
        (add_group_definition realm ++ rl ++ cl) := by
      rcases hcase with ⟨_, _, h3, _⟩ | ⟨_, h2⟩
      · exact absurd h3 hg
      · exact h2
    subst hls
    obtain ⟨hmem, hiff⟩ := add_group_definition_spec hg
    refine ⟨List.mem_cons_of_mem _ (List.mem_append.mpr (Or.inl
      (List.mem_append.mpr (Or.inl hmem)))), ?_, ?_⟩
    · intro hp
      rcases List.mem_cons.mp hp with heq | hp2
      · exact absurd heq (by decide)
      rcases List.mem_append.mp hp2 with hp3 | hp4
      · rcases List.mem_append.mp hp3 with hp5 | hp5
        · exact hiff.mp hp5
        · exact absurd hp5 (parent_not_mem_realm hr)
      · exact absurd hp4 (parent_not_mem_client hc)
    · intro hx
      exact List.mem_cons_of_mem _ (List.mem_append.mpr (Or.inl
        (List.mem_append.mpr (Or.inl (hiff.mpr hx)))))
  · intro hg
    unfold add_group_definition
    rw [if_pos (by simp [List.isEmpty_iff, hg])]

/-- Witness for C7 at a concrete realm with one top-level group having one
subgroup. -/
theorem C7_group_block_witness :
    (((⟨"R", [], [], [Group.mk "t" [Group.mk "s" []]], []⟩ :
        KeycloakRealm).groups ≠ [] →
      "    relation member: user" ∈ (["definition user \x7b\x7d",
        "definition group \x7b", "    relation member: user",
        "    relation parent: group", "\x7d"] : List String) ∧
      ("    relation parent: group" ∈ (["definition user \x7b\x7d",
        "definition group \x7b", "    relation member: user",
        "    relation parent: group", "\x7d"] : List String) ↔
        ∃ g ∈ (⟨"R", [], [], [Group.mk "t" [Group.mk "s" []]], []⟩ :
          KeycloakRealm).groups, g.subgroups ≠ [])) ∧
    ((⟨"R", [], [], [Group.mk "t" [Group.mk "s" []]], []⟩ :
        KeycloakRealm).groups = [] →
      add_group_definition ⟨"R", [], [], [Group.mk "t" [Group.mk "s" []]], []⟩
        = [])) :=
  C7_group_block ⟨"R", [], [], [Group.mk "t" [Group.mk "s" []]], []⟩
    ["definition user \x7b\x7d", "definition group \x7b",
     "    relation member: user", "    relation parent: group", "\x7d"] rfl

/-- C8: a Realm with empty realm roles, empty client roles and empty groups
generates without raising; the line list is the realm-name comment followed
by the line `definition user {}`, which it therefore contains. -/
theorem C8_minimal_output (name : String) :
    schema_lines ⟨name, [], [], [], []⟩ =
      some ["// Realm: " ++ name, "definition user \x7b\x7d"] ∧
    "definition user \x7b\x7d" ∈
      (["// Realm: " ++ name, "definition user \x7b\x7d"] : List String) ∧
    (generate_schema ⟨name, [], [], [], []⟩).isSome = true :=
  ⟨rfl, by simp, rfl⟩

/-- C9: builder fidelity.  A realm role record named `composite_role`,
marked composite with `composites.realm = ["admin"]` and
`composites.client = {"myapp": ["app_viewer"]}`, extracts the components
`["admin", "myapp:app_viewer"]` in that order, and a raw record carrying it
as its realm role yields exactly that entry of `composite_roles` —
independently of the `realm`/`id` keys and the groups of the record. -/
theorem C9_builder_fidelity (rname rid : Option String) (gs : List RawGroup) :
    extract_composite_components
      ⟨some "composite_role", true,
        some ⟨["admin"], [("myapp", ["app_viewer"])]⟩⟩ =
      ["admin", "myapp:app_viewer"] ∧
    (parse_data ⟨rname, rid,
        [⟨some "composite_role", true,
          some ⟨["admin"], [("myapp", ["app_viewer"])]⟩⟩], [], gs⟩).map
      (fun r => r.composite_roles) =
      some [("composite_role", ["admin", "myapp:app_viewer"])] :=
  ⟨rfl, rfl⟩

/-- C4: a role record with no `name` key, marked composite with a non-empty
composites structure, makes the whole build fail (the bracket access
`role["name"]` raises KeyError) instead of being skipped silently. -/
theorem C4_unnamed_composite_crash :
    parse_data ⟨none, none, [⟨none, true, some ⟨["admin"], []⟩⟩], [], []⟩ =
      none ∧
    extract_composite_roles
      ⟨none, none, [⟨none, true, some ⟨["admin"], []⟩⟩], [], []⟩ = none :=
  ⟨rfl, rfl⟩

/-- C10: when the `realm` key is present but bound to the empty string, the
name of the built realm is the `id` value if that is a non-empty string, and
`UnnamedRealm` when `id` is absent or empty. -/
theorem C10_empty_realm_name_fallback (rec : RawRealm) (r : KeycloakRealm)
    (h : parse_data rec = some r) (he : rec.realm = some "") :
    (∀ s, rec.id = some s → s ≠ "" → r.name = s) ∧
    ((rec.id = none ∨ rec.id = some "") → r.name = "UnnamedRealm") := by
  simp only [parse_data, Option.bind_eq_some] at h
  obtain ⟨cr, _, h⟩ := h
  simp only [Option.some.injEq] at h
  subst h
  constructor
  · intro s hid hs
    simp [orElseTruthy, he, hid, hs]
  · rintro (hid | hid) <;> simp [orElseTruthy, he, hid]

/-- Witness for C10: a record with `realm = ""` and `id = "abc"` builds a
realm named `abc`. -/
theorem C10_witness :
    (⟨"abc", [], [], [], []⟩ : KeycloakRealm).name = "abc" :=
  (C10_empty_realm_name_fallback ⟨some "", some "abc", [], [], []⟩
    ⟨"abc", [], [], [], []⟩ rfl rfl).1 "abc" rfl (by decide)

/-- C5 counterexample: a group record whose children are supplied only
under the lowercase `subgroups` key is parsed with an empty subgroup list —
the builder does not accept the lowercase key. -/
theorem C5_cex :
    parse_group (RawGroup.mk (some "g") []
      [RawGroup.mk (some "child") [] []]) = Group.mk "g" [] ∧
    ([] : List Group) ≠ [Group.mk "child" []] :=
  ⟨rfl, by simp⟩

/-- C5 amended: the builder reads children only from the `subGroups` key
(the lowercase `subgroups` key is ignored entirely), and parses them
recursively preserving source order at every level. -/
theorem C5_amended :
    (∀ name subs lower, parse_group (RawGroup.mk name subs lower) =
      Group.mk (name.getD "") (parse_groups subs)) ∧
    (∀ gs, parse_groups gs = gs.map parse_group) := by
  refine ⟨fun name subs lower => rfl, ?_⟩
  intro gs
  induction gs with
  | nil => rfl
  | cons g t ih => rw [parse_groups, ih, List.map_cons]

/-- C6 counterexample: a record where the role name `r` is composite both
under `roles.realm` (components `["a"]`) and under `roles.client["cl"]`
(components `["b"]`).  The realm-scope and client-scope role lists keep the
name independently, but `composite_roles` ends with a single entry holding
the components of the client scope: the realm-scope list `["a"]` was overwritten. -/
theorem C6_cex :
    (parse_data ⟨some "R", none, [⟨some "r", true, some ⟨["a"], []⟩⟩],
      [("cl", [⟨some "r", true, some ⟨["b"], []⟩⟩])], []⟩).map
      (fun x => (x.realm_roles, x.client_roles, x.composite_roles)) =
      some (["r"], [("cl", ["r"])], [("r", ["b"])]) := rfl

/-- C6 amended: realm roles and client roles are extracted independently
(the name appears in both lists), but `composite_roles` is a single
name-keyed map filled from the realm records first and the client records
second, so for a name composite in both scopes the client-scope component
list overwrites the realm-scope one. -/
theorem C6_amended (ra rb : List String) (name cl : String)
    (h1 : ra ≠ []) (h2 : rb ≠ []) (h3 : name ≠ "") :
    (parse_data ⟨some "R", none, [⟨some name, true, some ⟨ra, []⟩⟩],
      [(cl, [⟨some name, true, some ⟨rb, []⟩⟩])], []⟩).map
      (fun x => (x.realm_roles, x.client_roles, x.composite_roles)) =
      some ([name], [(cl, [name])], [(name, rb)]) := by
  simp [parse_data, extract_realm_roles, extract_client_roles,
    extract_composite_roles, extract_composites_aux,
    extract_composite_components, extract_groups, parse_groups, insertAssoc,
    orElseTruthy, List.isEmpty_iff, h1, h2, h3]

/-- Witness for C6 amended at concrete component lists. -/
theorem C6_amended_witness :
    (["a"] : List String) ≠ [] ∧ (["b"] : List String) ≠ [] ∧
    ("r" : String) ≠ "" ∧
    (parse_data ⟨some "R", none, [⟨some "r", true, some ⟨["a"], []⟩⟩],
      [("cl", [⟨some "r", true, some ⟨["b"], []⟩⟩])], []⟩).map
      (fun x => (x.realm_roles, x.client_roles, x.composite_roles)) =
      some (["r"], [("cl", ["r"])], [("r", ["b"])]) :=
  ⟨by simp, by simp, by simp,
    C6_amended ["a"] ["b"] "r" "cl" (by simp) (by simp) (by simp)⟩

/-- The replacement character is always in `[0-9a-zA-Z_]`. -/
theorem sanitizeChar_valid (c : Char) :
    (sanitizeChar c).isAlphanum = true ∨ sanitizeChar c = Char.ofNat 95 := by
  unfold sanitizeChar
  split
  · next hc =>
    simp only [Bool.or_eq_true, decide_eq_true_eq] at hc
    rcases hc with h | h
    · exact Or.inl h
    · exact Or.inr h
  · exact Or.inr rfl

/-- Replacing characters already in `[0-9a-zA-Z_]` changes nothing. -/
theorem map_sanitizeChar_id {l : List Char}
    (hl : ∀ c ∈ l, c.isAlphanum = true ∨ c = Char.ofNat 95) :
    l.map sanitizeChar = l := by
  induction l with
  | nil => rfl
  | cons a t ih =>
    rw [List.map_cons, ih (fun c hc => hl c (List.mem_cons_of_mem a hc))]
    have ha := hl a (List.mem_cons_self a t)
    unfold sanitizeChar
    rcases ha with h | h
    · rw [if_pos (by simp [h])]
    · rw [if_pos (by simp [h])]

/-- A non-empty string of `[0-9a-zA-Z_]` characters with a non-digit head
is a fixed point of `sanitize_identifier`. -/
theorem sanitize_identifier_of_valid {l : List Char} (hne : l ≠ [])
    (hv : ∀ x ∈ l, x.isAlphanum = true ∨ x = Char.ofNat 95)
    (hh : ∀ x, l.head? = some x → x.isDigit = false) :
    sanitize_identifier (String.mk l) = some (String.mk l) := by
  cases l with
  | nil => exact absurd rfl hne
  | cons a t =>
    unfold sanitize_identifier
    have hd : (String.mk (a :: t)).data = a :: t := rfl
    rw [hd, map_sanitizeChar_id hv]
    simp [hh a rfl]

/-- C3 counterexample: `sanitize_identifier` raises (IndexError on
`sanitized[0]`) for the empty string, so the claimed properties do not hold
for every string. -/
theorem C3_cex : sanitize_identifier "" = none := rfl

/-- C3 amended: for every non-empty string the sanitizer succeeds, is
idempotent, and returns a string whose characters all lie in
`[0-9a-zA-Z_]` and whose first character is not a digit. -/
theorem C3_amended (s : String) (h : s ≠ "") :
    ∃ t, sanitize_identifier s = some t ∧ sanitize_identifier t = some t ∧
      (∀ c ∈ t.data, c.isAlphanum = true ∨ c = Char.ofNat 95) ∧
      (∀ c, t.data.head? = some c → c.isDigit = false) := by
  obtain ⟨c, cs, hcs⟩ : ∃ c cs, s.data = c :: cs := by
    cases hsd : s.data with
    | nil => exact absurd (String.ext (by rw [hsd])) h
    | cons c cs => exact ⟨c, cs, rfl⟩
  have hvalid : ∀ x ∈ sanitizeChar c :: cs.map sanitizeChar,
      x.isAlphanum = true ∨ x = Char.ofNat 95 := by
    intro x hx
    rcases List.mem_cons.mp hx with rfl | hx2
    · exact sanitizeChar_valid c
    · obtain ⟨y, _, rfl⟩ := List.mem_map.mp hx2
      exact sanitizeChar_valid y
  by_cases hdig : (sanitizeChar c).isDigit = true
  · refine ⟨String.mk (Char.ofNat 95 :: sanitizeChar c :: cs.map sanitizeChar),
      ?_, ?_, ?_, ?_⟩
    · unfold sanitize_identifier
      rw [hcs, List.map_cons]
      simp [hdig]
    · apply sanitize_identifier_of_valid (by simp)
      · intro x hx
        rcases List.mem_cons.mp hx with rfl | hx2
        · exact Or.inr rfl
        · exact hvalid x hx2
      · intro x hx
        simp only [List.head?_cons, Option.some.injEq] at hx
        subst hx
        decide
    · intro x hx
      rcases List.mem_cons.mp hx with rfl | hx2
      · exact Or.inr rfl
      · exact hvalid x hx2
    · intro x hx
      simp only [List.head?_cons, Option.some.injEq] at hx
      subst hx
      decide
  · refine ⟨String.mk (sanitizeChar c :: cs.map sanitizeChar), ?_, ?_, ?_, ?_⟩
    · unfold sanitize_identifier
      rw [hcs, List.map_cons]
      simp [hdig]
    · exact sanitize_identifier_of_valid (by simp) hvalid
        (by intro x hx
            simp only [List.head?_cons, Option.some.injEq] at hx
            subst hx
            simpa using hdig)
    · exact hvalid
    · intro x hx
      simp only [List.head?_cons, Option.some.injEq] at hx
      subst hx
      simpa using hdig

/-- Witness for C3 amended at the concrete string `9my-app`. -/
theorem C3_amended_witness :
    ("9my-app" : String) ≠ "" ∧
    (∃ t, sanitize_identifier "9my-app" = some t ∧
      sanitize_identifier t = some t ∧
      (∀ c ∈ t.data, c.isAlphanum = true ∨ c = Char.ofNat 95) ∧
      (∀ c, t.data.head? = some c → c.isDigit = false)) :=
  ⟨by decide, C3_amended "9my-app" (by decide)⟩

/-- C1 counterexample: a realm role `c` composite over the single
client-scoped component `app:v`.  The realm block contains a permission
line joining the sanitized compound reference, and no comment fallback
line, contradicting the claim that a client-scoped component forces the
fallback. -/
theorem C1_cex :
    schema_lines ⟨"R", ["c"], [], [], [("c", ["app:v"])]⟩ =
      some ["definition user \x7b\x7d", "definition realm \x7b",
        "    relation c: user", "    permission c = app_v", "\x7d"] ∧
    "    permission c = app_v" ∈
      (["definition user \x7b\x7d", "definition realm \x7b",
        "    relation c: user", "    permission c = app_v", "\x7d"] :
        List String) ∧
    "    // Composite role \x27c\x27 spans multiple scopes (not fully expanded)" ∉
      (["definition user \x7b\x7d", "definition realm \x7b",
        "    relation c: user", "    permission c = app_v", "\x7d"] :
        List String) :=
  ⟨rfl, by decide, by decide⟩

/-- C1 amended: for every entry `(c, parts)` of `composite_roles` whose key
is a realm role, the realm block contains a permission line for `c` joining
all sanitized components in list order whenever `parts` is non-empty —
client-scoped `client:role` components included, their `:` sanitized to
`_` — and when `parts` is empty the entry contributes the comment fallback
line (so no permission line) to the realm block. -/
theorem C1_amended (realm : KeycloakRealm) (ls : List String) (c : String)
    (parts : List String) (h : schema_lines realm = some ls)
    (hmem : (c, parts) ∈ realm.composite_roles)
    (hc : c ∈ realm.realm_roles) :
    (parts ≠ [] → ∃ safe sparts, sanitize_identifier c = some safe ∧
      mapOption sanitize_identifier parts = some sparts ∧
      ("    permission " ++ safe ++ " = " ++
        String.intercalate " + " sparts) ∈ ls) ∧
    (parts = [] →
      add_composite_permissions c parts none =
        some ("    // Composite role \x27" ++ c ++
          "\x27 spans multiple scopes (not fully expanded)") ∧
      ("    // Composite role \x27" ++ c ++
        "\x27 spans multiple scopes (not fully expanded)") ∈ ls) := by
  obtain ⟨rl, cl, hr, hcli, hcase⟩ := schema_lines_cases h
  have hrr : realm.realm_roles ≠ [] := by
    rintro hh
    rw [hh] at hc
    exact absurd hc (List.not_mem_nil c)
  have hls : ls = "definition user \x7b\x7d" ::
      (add_group_definition realm ++ rl ++ cl) := by
    rcases hcase with ⟨h1, _, _, _⟩ | ⟨_, h2⟩
    · exact absurd h1 hrr
    · exact h2
  unfold add_realm_roles at hr
  rw [if_neg (by simp [List.isEmpty_iff, hrr]), Option.bind_eq_some] at hr
  obtain ⟨rel_lines, hrel, hr⟩ := hr
  rw [Option.bind_eq_some] at hr
  obtain ⟨comp_lines, hcompm, hr⟩ := hr
  simp only [Option.some.injEq] at hr
  subst hr
  have hfilter : (c, parts) ∈ realm.composite_roles.filter
      (fun p => realm.realm_roles.contains p.1) :=
    List.mem_filter.mpr ⟨hmem, by simp [hc]⟩
  obtain ⟨line, hlineq, hlinem⟩ := mapOption_mem hcompm hfilter
  have hlinels : line ∈ ls := by
    rw [hls]
    exact List.mem_cons_of_mem _ (List.mem_append.mpr (Or.inl
      (List.mem_append.mpr (Or.inr (List.mem_cons_of_mem _
        (List.mem_append.mpr (Or.inl
          (List.mem_append.mpr (Or.inr hlinem)))))))))
  constructor
  · intro hp
    unfold add_composite_permissions at hlineq
    rw [Option.bind_eq_some] at hlineq
    obtain ⟨safe, hsafe, hlineq⟩ := hlineq
    have hfid : parts.filter (fun p => !truthyRoles none ||
        ((none : Option (List String)).getD []).contains p) = parts := by
      simp [truthyRoles]
    rw [hfid, Option.bind_eq_some] at hlineq
    obtain ⟨sparts, hsp, hlineq⟩ := hlineq
    have hsne : sparts.isEmpty = false := by
      rw [List.isEmpty_eq_false]
      intro hh
      apply hp
      have hlen := mapOption_length hsp
      rw [hh] at hlen
      exact List.eq_nil_of_length_eq_zero hlen.symm
    rw [if_neg (by simp [hsne])] at hlineq
    simp only [Option.some.injEq] at hlineq
    exact ⟨safe, sparts, hsafe, hsp, by rw [hlineq]; exact hlinels⟩
  · intro hp
    subst hp
    have hcopy := hlineq
    unfold add_composite_permissions at hcopy
    rw [Option.bind_eq_some] at hcopy
    obtain ⟨safe, hsafe, _⟩ := hcopy
    have heq : add_composite_permissions c [] none =
        some ("    // Composite role \x27" ++ c ++
          "\x27 spans multiple scopes (not fully expanded)") := by
      unfold add_composite_permissions
      rw [hsafe, Option.some_bind]
      simp [mapOption]
    have hlc : line = "    // Composite role \x27" ++ c ++
        "\x27 spans multiple scopes (not fully expanded)" :=
      (Option.some.inj (heq.symm.trans hlineq)).symm
    exact ⟨heq, hlc ▸ hlinels⟩

/-- Witness for C1 amended at a realm exercising both a non-empty
component list (with a client-scoped component) and an empty one. -/
theorem C1_amended_witness :
    ((["x", "app:v"] : List String) ≠ [] →
      ∃ safe sparts, sanitize_identifier "c" = some safe ∧
        mapOption sanitize_identifier ["x", "app:v"] = some sparts ∧
        ("    permission " ++ safe ++ " = " ++
          String.intercalate " + " sparts) ∈
          (["definition user \x7b\x7d", "definition realm \x7b",
            "    relation c: user", "    relation d: user",
            "    permission c = x + app_v",
            "    // Composite role \x27d\x27 spans multiple scopes (not fully expanded)",
            "\x7d"] : List String)) ∧
    ((["x", "app:v"] : List String) = [] →
      add_composite_permissions "c" ["x", "app:v"] none =
        some ("    // Composite role \x27" ++ "c" ++
          "\x27 spans multiple scopes (not fully expanded)") ∧
      ("    // Composite role \x27" ++ "c" ++
        "\x27 spans multiple scopes (not fully expanded)") ∈
        (["definition user \x7b\x7d", "definition realm \x7b",
          "    relation c: user", "    relation d: user",
          "    permission c = x + app_v",
          "    // Composite role \x27d\x27 spans multiple scopes (not fully expanded)",
          "\x7d"] : List String)) :=
  C1_amended ⟨"R", ["c", "d"], [], [],
      [("c", ["x", "app:v"]), ("d", [])]⟩
    ["definition user \x7b\x7d", "definition realm \x7b",
      "    relation c: user", "    relation d: user",
      "    permission c = x + app_v",
      "    // Composite role \x27d\x27 spans multiple scopes (not fully expanded)",
      "\x7d"]
    "c" ["x", "app:v"] rfl (by decide) (by decide)

/-- C2 counterexample: the client `app` has roles `a` and `c`; the
composite `c` has components `["a", "other:b"]`, one of which is a compound
`client:role` reference.  The client block still contains a permission line
for `c` (joining only the member component `a`) and no comment fallback,
contradicting the claim that any compound reference forces the fallback. -/
theorem C2_cex :
    schema_lines ⟨"R", [], [("app", ["a", "c"])], [],
        [("c", ["a", "other:b"])]⟩ =
      some ["definition user \x7b\x7d", "definition app \x7b",
        "    relation a: user", "    relation c: user",
        "    permission c = a", "\x7d"] ∧
    "    permission c = a" ∈
      (["definition user \x7b\x7d", "definition app \x7b",
        "    relation a: user", "    relation c: user",
        "    permission c = a", "\x7d"] : List String) ∧
    "    // Composite role \x27c\x27 spans multiple scopes (not fully expanded)" ∉
      (["definition user \x7b\x7d", "definition app \x7b",
        "    relation a: user", "    relation c: user",
        "    permission c = a", "\x7d"] : List String) :=
  ⟨rfl, by decide, by decide⟩

/-- C2 amended: for every client entry `(client, roles)` and composite
entry `(c, parts)` with `c ∈ roles`, the client block keeps exactly the
components that are members of `roles` (compound `client:role` references
are dropped unless literally present in `roles`): if at least one
component survives the filter, a permission line joining the surviving
sanitized components in list order is emitted; the comment fallback
appears only when no component is a member of `roles`. -/
theorem C2_amended (realm : KeycloakRealm) (ls : List String)
    (client : String) (roles : List String) (c : String)
    (parts : List String) (h : schema_lines realm = some ls)
    (hcl : (client, roles) ∈ realm.client_roles)
    (hmem : (c, parts) ∈ realm.composite_roles) (hc : c ∈ roles) :
    (parts.filter (fun p => roles.contains p) ≠ [] →
      ∃ safe sparts, sanitize_identifier c = some safe ∧
        mapOption sanitize_identifier
          (parts.filter (fun p => roles.contains p)) = some sparts ∧
        ("    permission " ++ safe ++ " = " ++
          String.intercalate " + " sparts) ∈ ls) ∧
    (parts.filter (fun p => roles.contains p) = [] →
      add_composite_permissions c parts (some roles) =
        some ("    // Composite role \x27" ++ c ++
          "\x27 spans multiple scopes (not fully expanded)") ∧
      ("    // Composite role \x27" ++ c ++
        "\x27 spans multiple scopes (not fully expanded)") ∈ ls) := by
  obtain ⟨rl, cl, hr, hcli, hcase⟩ := schema_lines_cases h
  have hclne : realm.client_roles ≠ [] := by
    rintro hh
    rw [hh] at hcl
    exact absurd hcl (List.not_mem_nil _)
  have hls : ls = "definition user \x7b\x7d" ::
      (add_group_definition realm ++ rl ++ cl) := by
    rcases hcase with ⟨_, h1, _, _⟩ | ⟨_, h2⟩
    · exact absurd h1 hclne
    · exact h2
  unfold add_client_roles at hcli
  rw [Option.bind_eq_some] at hcli
  obtain ⟨blocks, hblocks, hcli⟩ := hcli
  simp only [Option.some.injEq] at hcli
  subst hcli
  obtain ⟨b, hbq, hbm⟩ := mapOption_mem hblocks hcl
  unfold client_block at hbq
  rw [Option.bind_eq_some] at hbq
  obtain ⟨safe_client, hscl, hbq⟩ := hbq
  rw [Option.bind_eq_some] at hbq
  obtain ⟨rel_lines, hrel, hbq⟩ := hbq
  rw [Option.bind_eq_some] at hbq
  obtain ⟨comp_lines, hcompm, hbq⟩ := hbq
  simp only [Option.some.injEq] at hbq
  subst hbq
  have hrne : roles ≠ [] := by
    rintro hh
    rw [hh] at hc
    exact absurd hc (List.not_mem_nil c)
  have hfilter : (c, parts) ∈ realm.composite_roles.filter
      (fun p => roles.contains p.1) :=
    List.mem_filter.mpr ⟨hmem, by simp [hc]⟩
  obtain ⟨line, hlineq, hlinem⟩ := mapOption_mem hcompm hfilter
  have hlinels : line ∈ ls := by
    rw [hls]
    refine List.mem_cons_of_mem _ (List.mem_append.mpr (Or.inr ?_))
    refine List.mem_flatten.mpr ⟨_, hbm, ?_⟩
    exact List.mem_cons_of_mem _ (List.mem_append.mpr (Or.inl
      (List.mem_append.mpr (Or.inr hlinem))))
  have hre : roles.isEmpty = false := List.isEmpty_eq_false.mpr hrne
  have hpred : (parts.filter (fun p => !truthyRoles (some roles) ||
      ((some roles : Option (List String)).getD []).contains p)) =
      parts.filter (fun p => roles.contains p) := by
    simp [truthyRoles, hre]
  constructor
  · intro hp
    unfold add_composite_permissions at hlineq
    rw [Option.bind_eq_some] at hlineq
    obtain ⟨safe, hsafe, hlineq⟩ := hlineq
    rw [hpred, Option.bind_eq_some] at hlineq
    obtain ⟨sparts, hsp, hlineq⟩ := hlineq
    have hsne : sparts.isEmpty = false := by
      rw [List.isEmpty_eq_false]
      intro hh
      apply hp
      have hlen := mapOption_length hsp
      rw [hh] at hlen
      exact List.eq_nil_of_length_eq_zero hlen.symm
    rw [if_neg (by simp [hsne])] at hlineq
    simp only [Option.some.injEq] at hlineq
    exact ⟨safe, sparts, hsafe, hsp, by rw [hlineq]; exact hlinels⟩
  · intro hp
    have hcopy := hlineq
    unfold add_composite_permissions at hcopy
    rw [Option.bind_eq_some] at hcopy
    obtain ⟨safe, hsafe, _⟩ := hcopy
    have heq : add_composite_permissions c parts (some roles) =
        some ("    // Composite role \x27" ++ c ++
          "\x27 spans multiple scopes (not fully expanded)") := by
      unfold add_composite_permissions
      rw [hsafe, Option.some_bind, hpred, hp]
      simp [mapOption]
    have hlc : line = "    // Composite role \x27" ++ c ++
        "\x27 spans multiple scopes (not fully expanded)" :=
      (Option.some.inj (heq.symm.trans hlineq)).symm
    exact ⟨heq, hlc ▸ hlinels⟩

/-- Witness for C2 amended at a client whose composite `c` has one member
component and one compound reference. -/
theorem C2_amended_witness :
    ((["a", "x:y"].filter
        (fun p => (["a", "c", "d"] : List String).contains p)) ≠ [] →
      ∃ safe sparts, sanitize_identifier "c" = some safe ∧
        mapOption sanitize_identifier
          (["a", "x:y"].filter
            (fun p => (["a", "c", "d"] : List String).contains p)) =
          some sparts ∧
        ("    permission " ++ safe ++ " = " ++
          String.intercalate " + " sparts) ∈
          (["definition user \x7b\x7d", "definition app \x7b",
            "    relation a: user", "    relation c: user",
            "    relation d: user", "    permission c = a",
            "    // Composite role \x27d\x27 spans multiple scopes (not fully expanded)",
            "\x7d"] : List String)) ∧
    ((["a", "x:y"].filter
        (fun p => (["a", "c", "d"] : List String).contains p)) = [] →
      add_composite_permissions "c" ["a", "x:y"] (some ["a", "c", "d"]) =
        some ("    // Composite role \x27" ++ "c" ++
          "\x27 spans multiple scopes (not fully expanded)") ∧
      ("    // Composite role \x27" ++ "c" ++
        "\x27 spans multiple scopes (not fully expanded)") ∈
        (["definition user \x7b\x7d", "definition app \x7b",
          "    relation a: user", "    relation c: user",
          "    relation d: user", "    permission c = a",
          "    // Composite role \x27d\x27 spans multiple scopes (not fully expanded)",
          "\x7d"] : List String)) :=
  C2_amended ⟨"R", [], [("app", ["a", "c", "d"])], [],
      [("c", ["a", "x:y"]), ("d", ["z"])]⟩
    ["definition user \x7b\x7d", "definition app \x7b",
      "    relation a: user", "    relation c: user",
      "    relation d: user", "    permission c = a",
      "    // Composite role \x27d\x27 spans multiple scopes (not fully expanded)",
      "\x7d"]
    "app" ["a", "c", "d"] "c" ["a", "x:y"] rfl (by decide) (by decide)
    (by decide)

end k2spicedb
